import Mathlib

/-!
Shallow embedding of the chunked-upload session manager of server.js
(node_file_upload_server).

Modelling conventions:
* Filesystem paths are lists of segments; path.join appends one segment.
* parseInt header values are modelled as already-parsed Int values wrapped in
  Option (none = header absent, so the JS default via the or-operator fires).
* The in-memory Map uploadTracker, the open write streams, the pending
  setTimeout handles and the on-disk files/directories are association lists
  inside an explicit ServerState record; Date.now() is the now field.
* Chunk request bodies are byte lists.
-/

abbrev FsPath := List String
abbrev Bytes := List Nat

def pjoin (d : FsPath) (s : String) : FsPath := d ++ [s]

/-- os.tmpdir() joined with the chunk staging root (server.js line 9). -/
def TEMP_DIR : FsPath := ["tmp", "file-server-chunks"]

/-- process.cwd(), the server's working directory. -/
def CWD : FsPath := ["srv"]

/-- The uploads directory created by the chunk handler (server.js line 131). -/
def UPLOADS_DIR : FsPath := pjoin CWD "uploads"

/-- 2MB write-stream buffer (server.js line 18). -/
def HIGH_WATER_MARK : Nat := 2 * 1024 * 1024

/-- 24 hour upload timeout in milliseconds (server.js line 26). -/
def UPLOAD_TIMEOUT : Nat := 24 * 60 * 60 * 1000

/-- Association-list lookup (Map.get / fs path lookup). -/
def getA {κ α : Type} [DecidableEq κ] : List (κ × α) → κ → Option α
  | [], _ => none
  | e :: t, k => if e.1 = k then some e.2 else getA t k

/-- Association-list insert-or-replace (Map.set / file create). -/
def setA {κ α : Type} [DecidableEq κ] : List (κ × α) → κ → α → List (κ × α)
  | [], k, v => [(k, v)]
  | e :: t, k, v => if e.1 = k then (k, v) :: t else e :: setA t k v

/-- Association-list delete (Map.delete / unlink). -/
def delA {κ α : Type} [DecidableEq κ] : List (κ × α) → κ → List (κ × α)
  | [], _ => []
  | e :: t, k => if e.1 = k then delA t k else e :: delA t k

/-- One open fs write stream: its target path and whether end() was called. -/
structure WStream where
  path : FsPath
  closed : Bool
deriving DecidableEq

/-- One uploadTracker entry (server.js lines 156-175). -/
structure Session where
  finalPath : FsPath
  receivedChunks : List Int
  streamId : Nat
  totalChunks : Int
  createdAt : Nat
  timerId : Nat
deriving DecidableEq

/-- The whole mutable world the chunk-upload core touches. -/
structure ServerState where
  tracker : List (String × Session)
  streams : List (Nat × WStream)
  nextStreamId : Nat
  timers : List (Nat × String × Nat)
  nextTimerId : Nat
  files : List (FsPath × Bytes)
  dirs : List FsPath
  now : Nat
deriving DecidableEq

/-- Server start: empty tracker, staging root created (server.js lines 9-15). -/
def initState : ServerState :=
  { tracker := [], streams := [], nextStreamId := 0, timers := [], nextTimerId := 0,
    files := [], dirs := [TEMP_DIR], now := 0 }

/-- mkdirSync with existsSync guard. -/
def addDir (ds : List FsPath) (d : FsPath) : List FsPath :=
  if ds.contains d then ds else d :: ds

/-- Raw request headers for /upload-chunk; none models an absent header. -/
structure ChunkHeaders where
  fileName : Option String
  chunkIndex : Option Int
  totalChunks : Option Int
  fileId : Option String

/-- Header extraction with defaults (server.js lines 117-120): missing chunk
    index defaults to 0, missing total to 1, missing id to the timestamp. -/
def parseChunkHeaders (h : ChunkHeaders) (now : Nat) : String × Int × Int × String :=
  (h.fileName.getD "", h.chunkIndex.getD 0, h.totalChunks.getD 1, h.fileId.getD (toString now))

/-- Structured content of the /upload-chunk responses. -/
inductive ChunkResponse
  | missingFileName : ChunkResponse
  | sessionNotFound (shouldRestart : Bool) : ChunkResponse
  | alreadyReceived : ChunkResponse
  | accepted (received : Nat) (fileId : String) : ChunkResponse
  | complete (filePath : FsPath) : ChunkResponse
deriving DecidableEq

/-- Chunk-0 (re)initialisation of the tracker entry (server.js lines 146-178):
    mkdir the target directory, open the output stream in truncate mode,
    record totalChunks, arm the one-shot expiry timer, insert the session. -/
def createSession (st : ServerState) (fid fileName : String) (targetPath : FsPath)
    (total : Int) : ServerState :=
  let st1 := { st with dirs := addDir st.dirs targetPath }
  let finalPath := pjoin targetPath fileName
  { st1 with
    tracker := setA st1.tracker fid
      { finalPath := finalPath, receivedChunks := [], streamId := st1.nextStreamId,
        totalChunks := total, createdAt := st1.now, timerId := st1.nextTimerId },
    streams := setA st1.streams st1.nextStreamId { path := finalPath, closed := false },
    files := setA st1.files finalPath [],
    nextStreamId := st1.nextStreamId + 1,
    timers := setA st1.timers st1.nextTimerId (fid, st1.now + UPLOAD_TIMEOUT),
    nextTimerId := st1.nextTimerId + 1 }

/-- Lines 146-181: unconditional chunk-0 creation followed by the Map lookup. -/
def resolveOrCreate (st : ServerState) (fid fileName : String) (targetPath : FsPath)
    (idx total : Int) : ServerState × Option Session :=
  let st1 := if idx = 0 then createSession st fid fileName targetPath total else st
  (st1, getA st1.tracker fid)

/-- writeStream.end(): mark the stream closed, releasing the handle. -/
def endStream (st : ServerState) (sid : Nat) : ServerState :=
  match getA st.streams sid with
  | some ws => { st with streams := setA st.streams sid { ws with closed := true } }
  | none => st

/-- p lies strictly below directory d. -/
def underDir (d p : FsPath) : Bool := d.isPrefixOf p && decide (d.length < p.length)

/-- removeDirectory (server.js lines 584-598): recursively delete everything
    under d, then d itself. -/
def removeDir (st : ServerState) (d : FsPath) : ServerState :=
  { st with files := st.files.filter (fun e => !(underDir d e.1)),
            dirs := st.dirs.filter (fun x => !(x == d || underDir d x)) }

/-- Staging file for one chunk index (server.js line 143 / 434 / 613). -/
def chunkFilePath (tempDir : FsPath) (i : Nat) : FsPath :=
  pjoin tempDir ("chunk-" ++ toString i)

/-- The request end handler (server.js lines 242-294): append the body to the
    output stream, add the index to receivedChunks, then the completion check:
    when the received count equals totalChunks, end the stream, clear the
    timer, drop the session, clean the staging directory and report the final
    path; otherwise acknowledge with the updated received count.
    writeBody is the write at line 245: append the body bytes to the output
    stream, i.e. to the file the stream owns. -/
def writeBody (st : ServerState) (s : Session) (body : Bytes) : ServerState :=
  let content := (getA st.files s.finalPath).getD []
  { st with files := setA st.files s.finalPath (content ++ body) }

/-- The branch on the completion check (server.js lines 259-294). -/
def acceptWrite (st : ServerState) (fid : String) (s : Session) (idx : Int)
    (body : Bytes) (tempDir : FsPath) : ServerState × ChunkResponse :=
  let st1 := writeBody st s body
  let received := s.receivedChunks ++ [idx]
  if (received.length : Int) = s.totalChunks then
    let st2 := endStream st1 s.streamId
    let st3 := { st2 with timers := delA st2.timers s.timerId,
                          tracker := delA st2.tracker fid }
    let st4 := removeDir st3 tempDir
    (st4, ChunkResponse.complete s.finalPath)
  else
    ({ st1 with tracker := setA st1.tracker fid { s with receivedChunks := received } },
     ChunkResponse.accepted received.length fid)

/-- The whole /upload-chunk handler (server.js lines 109-316). The branch at
    lines 183-214 is unreachable: when chunkIndex is 0 the entry was just set
    at line 156, so the lookup at line 181 cannot miss. -/
def processUploadChunk (st : ServerState) (h : ChunkHeaders) (queryPath : Option FsPath)
    (body : Bytes) : ServerState × ChunkResponse :=
  let fileName := (parseChunkHeaders h st.now).1
  let idx := (parseChunkHeaders h st.now).2.1
  let total := (parseChunkHeaders h st.now).2.2.1
  let fid := (parseChunkHeaders h st.now).2.2.2
  let targetPath := queryPath.getD CWD
  if fileName = "" then (st, ChunkResponse.missingFileName)
  else
    let st1 := { st with dirs := addDir st.dirs UPLOADS_DIR }
    let tempDir := pjoin TEMP_DIR fid
    let st2 := { st1 with dirs := addDir st1.dirs tempDir }
    let rc := resolveOrCreate st2 fid fileName targetPath idx total
    match rc.2 with
    | none => (rc.1, ChunkResponse.sessionNotFound true)
    | some s =>
      if idx ∈ s.receivedChunks then (rc.1, ChunkResponse.alreadyReceived)
      else acceptWrite rc.1 fid s idx body tempDir

/-- Submit a run of chunk bodies with consecutive indices, collecting every
    response (the client-side loop driving /upload-chunk). -/
def runUpload (fid fileName : String) (queryPath : Option FsPath) (total : Int) :
    ServerState → Nat → List Bytes → ServerState × List ChunkResponse
  | st, _, [] => (st, [])
  | st, start, b :: rest =>
    let r := processUploadChunk st
      { fileName := some fileName, chunkIndex := some (start : Int),
        totalChunks := some total, fileId := some fid } queryPath b
    let rr := runUpload fid fileName queryPath total r.1 (start + 1) rest
    (rr.1, r.2 :: rr.2)

/-- The setTimeout callback armed at session creation (server.js lines
    167-174): end the stream of whatever session the id maps to now, then
    delete the registry entry. -/
def fireTimer (st : ServerState) (tid : Nat) : ServerState :=
  match getA st.timers tid with
  | none => st
  | some fd =>
    let st1 := { st with timers := delA st.timers tid }
    let st2 :=
      match getA st1.tracker fd.1 with
      | some u => endStream st1 u.streamId
      | none => st1
    { st2 with tracker := delA st2.tracker fd.1 }

/-- One iteration of the hourly stale sweep body (server.js lines 565-574). -/
def sweepStep (now : Nat) (acc : ServerState) (e : String × Session) : ServerState :=
  if UPLOAD_TIMEOUT < now - e.2.createdAt then
    let acc1 := endStream acc e.2.streamId
    let acc2 := { acc1 with timers := delA acc1.timers e.2.timerId }
    { acc2 with tracker := delA acc2.tracker e.1 }
  else acc

/-- The hourly cleanup pass over the tracker (server.js lines 563-576). -/
def cleanupStaleUploads (st : ServerState) : ServerState :=
  st.tracker.foldl (sweepStep st.now) st

/-- Raw request headers for /combine-chunks. -/
structure CombineHeaders where
  fileName : Option String
  fileId : Option String
  totalChunks : Option Int

/-- Structured content of the /combine-chunks responses. -/
inductive CombineResponse
  | missingInfo : CombineResponse
  | sessionNotFound : CombineResponse
  | missingChunk (i : Nat) : CombineResponse
  | assembled (filePath : FsPath) : CombineResponse
deriving DecidableEq

/-- Observable assembly events: one read per chunk file, and the end() call
    on the output stream. -/
inductive AsmEvent
  | readChunk (i : Nat) : AsmEvent
  | closeSink : AsmEvent
deriving DecidableEq

/-- The verification loop (server.js lines 433-442): scan indices upward and
    report the first one whose staging file is absent. -/
def findMissing (files : List (FsPath × Bytes)) (tempDir : FsPath) :
    Nat → Nat → Option Nat
  | 0, _ => none
  | fuel + 1, i =>
    if getA files (chunkFilePath tempDir i) = none then some i
    else findMissing files tempDir fuel (i + 1)

/-- combineChunks (server.js lines 601-637): read the staging files in
    ascending index order, piping each into the output stream, and end the
    stream after the last one; returns the appended bytes and the event
    trace. -/
def combineChunksGo (files : List (FsPath × Bytes)) (tempDir : FsPath) :
    Nat → Nat → Bytes × List AsmEvent
  | 0, _ => ([], [AsmEvent.closeSink])
  | fuel + 1, i =>
    let bytes := (getA files (chunkFilePath tempDir i)).getD []
    let r := combineChunksGo files tempDir fuel (i + 1)
    (bytes ++ r.1, AsmEvent.readChunk i :: r.2)

/-- The whole /combine-chunks handler (server.js lines 407-492). -/
def processCombineChunks (st : ServerState) (h : CombineHeaders)
    (queryPath : Option FsPath) : ServerState × CombineResponse × List AsmEvent :=
  let fileName := h.fileName.getD ""
  let fid := h.fileId.getD ""
  let total := h.totalChunks.getD 0
  let targetPath := queryPath.getD CWD
  if fileName = "" ∨ fid = "" ∨ total = 0 then (st, CombineResponse.missingInfo, [])
  else
    let tempDir := pjoin TEMP_DIR fid
    if st.dirs.contains tempDir then
      match findMissing st.files tempDir total.toNat 0 with
      | some i => (st, CombineResponse.missingChunk i, [])
      | none =>
        let st1 := { st with dirs := addDir st.dirs targetPath }
        let finalPath := pjoin targetPath fileName
        let sid := st1.nextStreamId
        let st2 := { st1 with files := setA st1.files finalPath [],
                              streams := setA st1.streams sid { path := finalPath, closed := false },
                              nextStreamId := sid + 1 }
        let r := combineChunksGo st2.files tempDir total.toNat 0
        let st3 := { st2 with files := setA st2.files finalPath r.1 }
        let st4 := endStream st3 sid
        let st5 := removeDir st4 tempDir
        (st5, CombineResponse.assembled finalPath, r.2)
    else (st, CombineResponse.sessionNotFound, [])

/-- Write-stream buffer state for the backpressure model. -/
structure SinkState where
  buffered : Nat
  highWaterMark : Nat
deriving DecidableEq

/-- writable.write (server.js line 245): queue the bytes; the return value is
    false once the buffered amount has reached the high-water mark. -/
def sinkWrite (s : SinkState) (n : Nat) : SinkState × Bool :=
  ({ s with buffered := s.buffered + n }, decide (s.buffered + n < s.highWaterMark))

/-- Ordered events inside the end handler. -/
inductive WEvent
  | wWrite (n : Nat) : WEvent
  | wDrainWait : WEvent
  | wMarkReceived (idx : Int) : WEvent
  | wRespond : WEvent
deriving DecidableEq

/-- Event order of the end handler (server.js lines 242-294): the write at
    line 245, the await of the drain event at lines 248-251 when write
    returned false, the receivedChunks.add at line 257, and the response. -/
def endHandlerEvents (sink : SinkState) (bodyLen : Nat) (idx : Int) : List WEvent :=
  let w := sinkWrite sink bodyLen
  WEvent.wWrite bodyLen ::
    ((if w.2 then [] else [WEvent.wDrainWait]) ++ [WEvent.wMarkReceived idx, WEvent.wRespond])

/-- Events the scheduler can run: a chunk request, a combine request, a due
    one-shot expiry timer, the hourly sweep, and the clock advancing. -/
inductive ServerStep : ServerState → ServerState → Prop
  | chunk (st : ServerState) (h : ChunkHeaders) (qp : Option FsPath) (body : Bytes) :
      ServerStep st (processUploadChunk st h qp body).1
  | combine (st : ServerState) (h : CombineHeaders) (qp : Option FsPath) :
      ServerStep st (processCombineChunks st h qp).1
  | timer (st : ServerState) (tid : Nat) (fid : String) (dl : Nat) :
      getA st.timers tid = some (fid, dl) → dl ≤ st.now → ServerStep st (fireTimer st tid)
  | sweep (st : ServerState) : ServerStep st (cleanupStaleUploads st)
  | tick (st : ServerState) (d : Nat) : ServerStep st { st with now := st.now + d }

/-- States the server can be in, starting from boot. -/
inductive ServerReach : ServerState → Prop
  | boot : ServerReach initState
  | step {s t : ServerState} : ServerReach s → ServerStep s t → ServerReach t

/-! ### Association-list lemmas -/

theorem getA_setA_self {κ α : Type} [DecidableEq κ] (m : List (κ × α)) (k : κ) (v : α) :
    getA (setA m k v) k = some v := by
  induction m with
  | nil => simp [setA, getA]
  | cons e t ih => by_cases h : e.1 = k <;> simp [setA, getA, h, ih]

theorem getA_setA_ne {κ α : Type} [DecidableEq κ] (m : List (κ × α)) (k k' : κ) (v : α)
    (h : k' ≠ k) : getA (setA m k v) k' = getA m k' := by
  induction m with
  | nil => simp [setA, getA, Ne.symm h]
  | cons e t ih => by_cases he : e.1 = k <;> simp [setA, getA, he, Ne.symm h, ih]

theorem getA_delA_self {κ α : Type} [DecidableEq κ] (m : List (κ × α)) (k : κ) :
    getA (delA m k) k = none := by
  induction m with
  | nil => simp [delA, getA]
  | cons e t ih => by_cases h : e.1 = k <;> simp [delA, getA, h, ih]

theorem getA_delA_ne {κ α : Type} [DecidableEq κ] (m : List (κ × α)) (k k' : κ)
    (h : k' ≠ k) : getA (delA m k) k' = getA m k' := by
  induction m with
  | nil => simp [delA, getA]
  | cons e t ih => by_cases he : e.1 = k <;> simp [delA, getA, he, Ne.symm h, ih]

theorem getA_delA_some {κ α : Type} [DecidableEq κ] (m : List (κ × α)) (k k' : κ) (v : α)
    (h : getA (delA m k) k' = some v) : getA m k' = some v := by
  by_cases hk : k' = k
  · subst hk; rw [getA_delA_self] at h; simp at h
  · rwa [getA_delA_ne m k k' hk] at h

theorem getA_mem {κ α : Type} [DecidableEq κ] (m : List (κ × α)) (k : κ) (v : α)
    (h : getA m k = some v) : (k, v) ∈ m := by
  induction m with
  | nil => simp [getA] at h
  | cons e t ih =>
    obtain ⟨a, b⟩ := e
    by_cases he : a = k
    · simp [getA, he] at h
      subst he
      subst h
      exact List.mem_cons_self _ _
    · simp [getA, he] at h
      exact List.mem_cons_of_mem _ (ih h)

theorem getA_filter_keep {κ α : Type} [DecidableEq κ] (m : List (κ × α)) (p : κ × α → Bool)
    (k : κ) (hp : ∀ v, p (k, v) = true) : getA (m.filter p) k = getA m k := by
  induction m with
  | nil => simp [getA]
  | cons e t ih =>
    by_cases he : e.1 = k
    · have : p e = true := by
        have : e = (k, e.2) := by cases e; simp_all
        rw [this]; exact hp e.2
      simp [List.filter, this, getA, he, ih]
    · cases hpe : p e <;> simp [List.filter, hpe, getA, he, ih]

theorem getA_filter_drop {κ α : Type} [DecidableEq κ] (m : List (κ × α)) (p : κ × α → Bool)
    (k : κ) (hp : ∀ v, p (k, v) = false) : getA (m.filter p) k = none := by
  induction m with
  | nil => simp [getA]
  | cons e t ih =>
    by_cases he : e.1 = k
    · have : p e = false := by
        have : e = (k, e.2) := by cases e; simp_all
        rw [this]; exact hp e.2
      simp [List.filter, this, ih]
    · cases hpe : p e <;> simp [List.filter, hpe, getA, he, ih]

/-! ### Path and index-range helpers -/

/-- The chunk indices 0..k-1, the receivedChunks contents after k in-order
    accepted chunks. -/
def intRange (k : Nat) : List Int := (List.range k).map Int.ofNat

theorem intRange_length (k : Nat) : (intRange k).length = k := by
  rw [intRange, List.length_map, List.length_range]

theorem intRange_snoc (k : Nat) : intRange k ++ [(k : Int)] = intRange (k + 1) := by
  simp [intRange, List.range_succ]

theorem self_not_mem_intRange (k : Nat) : ((k : Int)) ∉ intRange k := by
  unfold intRange
  intro hmem
  rw [List.mem_map] at hmem
  obtain ⟨j, hj, hcast⟩ := hmem
  rw [List.mem_range] at hj
  rw [Int.ofNat_eq_natCast] at hcast
  have : j = k := by exact_mod_cast hcast
  omega

theorem isPrefixOf_append_self {α : Type} [DecidableEq α] (l t : List α) :
    l.isPrefixOf (l ++ t) = true := by
  induction l with
  | nil => simp [List.isPrefixOf]
  | cons a l ih => simp [List.isPrefixOf, ih]

theorem underDir_pjoin (d : FsPath) (s : String) : underDir d (pjoin d s) = true := by
  simp [underDir, pjoin, isPrefixOf_append_self]

theorem ne_of_not_underDir {d p : FsPath} (s : String) (h : underDir d p = false) :
    pjoin d s ≠ p := by
  intro hq
  rw [← hq, underDir_pjoin] at h
  cases h

/-! ### Effect lemmas for the handler pieces -/

theorem endStream_tracker (st : ServerState) (sid : Nat) :
    (endStream st sid).tracker = st.tracker := by
  unfold endStream; split <;> rfl

theorem endStream_timers (st : ServerState) (sid : Nat) :
    (endStream st sid).timers = st.timers := by
  unfold endStream; split <;> rfl

theorem endStream_files (st : ServerState) (sid : Nat) :
    (endStream st sid).files = st.files := by
  unfold endStream; split <;> rfl

theorem endStream_dirs (st : ServerState) (sid : Nat) :
    (endStream st sid).dirs = st.dirs := by
  unfold endStream; split <;> rfl

theorem endStream_now (st : ServerState) (sid : Nat) :
    (endStream st sid).now = st.now := by
  unfold endStream; split <;> rfl

theorem endStream_getA_self (st : ServerState) (sid : Nat) (ws : WStream)
    (h : getA st.streams sid = some ws) :
    getA (endStream st sid).streams sid = some { path := ws.path, closed := true } := by
  unfold endStream
  rw [h]
  simp [getA_setA_self]

/-- Ending any stream preserves a stream's recorded path, and can only set
    the closed flag. -/
theorem endStream_pathIs (st : ServerState) (sid sid' : Nat) (p : FsPath) (b : Bool)
    (h : getA st.streams sid = some { path := p, closed := b }) :
    ∃ b', getA (endStream st sid').streams sid = some { path := p, closed := b' } := by
  by_cases hs : sid' = sid
  · subst hs
    exact ⟨true, endStream_getA_self st sid' _ h⟩
  · unfold endStream
    cases hws : getA st.streams sid' with
    | none => exact ⟨b, h⟩
    | some ws =>
      refine ⟨b, ?_⟩
      simpa [getA_setA_ne _ _ _ _ (fun hh => hs hh.symm)] using h

theorem endStream_closed_stable (st : ServerState) (sid sid' : Nat) (p : FsPath)
    (h : getA st.streams sid = some { path := p, closed := true }) :
    getA (endStream st sid').streams sid = some { path := p, closed := true } := by
  by_cases hs : sid' = sid
  · subst hs
    simpa using endStream_getA_self st sid' _ h
  · unfold endStream
    cases hws : getA st.streams sid' with
    | none => exact h
    | some ws => simpa [getA_setA_ne _ _ _ _ (fun hh => hs hh.symm)] using h

/-- The session record built at chunk-0 initialisation (server.js lines 156-175). -/
def freshSession (st : ServerState) (fileName : String) (targetPath : FsPath)
    (total : Int) : Session :=
  { finalPath := pjoin targetPath fileName, receivedChunks := [],
    streamId := st.nextStreamId, totalChunks := total, createdAt := st.now,
    timerId := st.nextTimerId }

theorem createSession_tracker_self (st : ServerState) (fid fileName : String)
    (targetPath : FsPath) (total : Int) :
    getA (createSession st fid fileName targetPath total).tracker fid
      = some (freshSession st fileName targetPath total) := by
  simp [createSession, freshSession, getA_setA_self]

theorem createSession_files_self (st : ServerState) (fid fileName : String)
    (targetPath : FsPath) (total : Int) :
    getA (createSession st fid fileName targetPath total).files (pjoin targetPath fileName)
      = some [] := by
  simp [createSession, getA_setA_self]

theorem createSession_streams_self (st : ServerState) (fid fileName : String)
    (targetPath : FsPath) (total : Int) :
    getA (createSession st fid fileName targetPath total).streams st.nextStreamId
      = some { path := pjoin targetPath fileName, closed := false } := by
  simp [createSession, getA_setA_self]

/-- The completion half of the end handler: when the write brings the
    received count up to totalChunks, the stream is ended, the timer
    cleared, the session dropped, the staging directory removed, and the
    response carries the final path and the exact file contents. -/
theorem acceptWrite_complete_spec (st : ServerState) (fid : String) (s : Session)
    (idx : Int) (body : Bytes) (tempDir : FsPath) (acc : Bytes)
    (hfp : getA st.files s.finalPath = some acc)
    (hstream : getA st.streams s.streamId = some { path := s.finalPath, closed := false })
    (hlen : ((s.receivedChunks.length + 1 : Nat) : Int) = s.totalChunks)
    (hout : underDir tempDir s.finalPath = false) :
    (acceptWrite st fid s idx body tempDir).2 = ChunkResponse.complete s.finalPath
    ∧ getA (acceptWrite st fid s idx body tempDir).1.tracker fid = none
    ∧ getA (acceptWrite st fid s idx body tempDir).1.streams s.streamId
        = some { path := s.finalPath, closed := true }
    ∧ getA (acceptWrite st fid s idx body tempDir).1.timers s.timerId = none
    ∧ getA (acceptWrite st fid s idx body tempDir).1.files s.finalPath
        = some (acc ++ body) := by
  have hcond : (((s.receivedChunks ++ [idx]).length : Nat) : Int) = s.totalChunks := by
    simpa [List.length_append] using hlen
  have hstream1 : getA (writeBody st s body).streams s.streamId
      = some { path := s.finalPath, closed := false } := hstream
  have hfile1 : getA (writeBody st s body).files s.finalPath = some (acc ++ body) := by
    simp [writeBody, getA_setA_self, hfp]
  unfold acceptWrite
  rw [if_pos hcond]
  refine ⟨rfl, ?_, ?_, ?_, ?_⟩
  · simp [removeDir, endStream_tracker, getA_delA_self]
  · have h2 := endStream_getA_self (writeBody st s body) s.streamId _ hstream1
    simpa [removeDir] using h2
  · simp [removeDir, endStream_timers, getA_delA_self]
  · have h3 : getA (endStream (writeBody st s body) s.streamId).files s.finalPath
        = some (acc ++ body) := by
      rw [endStream_files]
      exact hfile1
    simp only [removeDir]
    rw [getA_filter_keep]
    · exact h3
    · intro v
      simp [hout]

/-- The state after the two unconditional mkdir calls of the chunk handler
    (server.js lines 130-140). -/
def withUploadDirs (st : ServerState) (fid : String) : ServerState :=
  { st with dirs := addDir (addDir st.dirs UPLOADS_DIR) (pjoin TEMP_DIR fid) }

/-- The state the accepted (non-final) branch of the end handler leaves. -/
def acceptedState (st : ServerState) (fid : String) (s : Session) (idx : Int)
    (body : Bytes) : ServerState :=
  { writeBody st s body with
    tracker := setA st.tracker fid { s with receivedChunks := s.receivedChunks ++ [idx] } }

/-- The acknowledgement half of the end handler: when chunks are still
    outstanding, only the file contents and the session's receivedChunks set
    change, and the response reports the updated received count. -/
theorem acceptWrite_accepted_spec (st : ServerState) (fid : String) (s : Session)
    (idx : Int) (body : Bytes) (tempDir : FsPath)
    (hne : ((s.receivedChunks.length + 1 : Nat) : Int) ≠ s.totalChunks) :
    acceptWrite st fid s idx body tempDir
      = (acceptedState st fid s idx body,
         ChunkResponse.accepted (s.receivedChunks.length + 1) fid) := by
  have hcond : ¬ ((((s.receivedChunks ++ [idx]).length : Nat) : Int) = s.totalChunks) := by
    simpa [List.length_append] using hne
  unfold acceptWrite
  rw [if_neg hcond]
  simp [acceptedState, writeBody, List.length_append]

/-- Unknown id with a nonzero index: only the two mkdir calls happen and the
    handler answers with the restart flag (server.js lines 215-221). -/
theorem processUploadChunk_notfound (st : ServerState) (fid name : String)
    (qp : Option FsPath) (idx total : Int) (body : Bytes)
    (hname : name ≠ "") (hidx : idx ≠ 0)
    (hs : getA st.tracker fid = none) :
    processUploadChunk st (ChunkHeaders.mk (some name) (some idx) (some total) (some fid)) qp body
      = (withUploadDirs st fid, ChunkResponse.sessionNotFound true) := by
  simp [processUploadChunk, parseChunkHeaders, hname, resolveOrCreate, hidx, hs, withUploadDirs]

/-- Duplicate nonzero index: answered as already received with no state
    change beyond the mkdir calls (server.js lines 224-231). -/
theorem processUploadChunk_dup (st : ServerState) (fid name : String)
    (qp : Option FsPath) (idx total : Int) (body : Bytes) (s : Session)
    (hname : name ≠ "") (hidx : idx ≠ 0)
    (hs : getA st.tracker fid = some s) (hmem : idx ∈ s.receivedChunks) :
    processUploadChunk st (ChunkHeaders.mk (some name) (some idx) (some total) (some fid)) qp body
      = (withUploadDirs st fid, ChunkResponse.alreadyReceived) := by
  simp [processUploadChunk, parseChunkHeaders, hname, resolveOrCreate, hidx, hs, hmem, withUploadDirs]

/-- Fresh nonzero index on a live session reduces to the end handler on the
    unchanged session. -/
theorem processUploadChunk_write (st : ServerState) (fid name : String)
    (qp : Option FsPath) (idx total : Int) (body : Bytes) (s : Session)
    (hname : name ≠ "") (hidx : idx ≠ 0)
    (hs : getA st.tracker fid = some s) (hmem : idx ∉ s.receivedChunks) :
    processUploadChunk st (ChunkHeaders.mk (some name) (some idx) (some total) (some fid)) qp body
      = acceptWrite (withUploadDirs st fid) fid s idx body (pjoin TEMP_DIR fid) := by
  simp [processUploadChunk, parseChunkHeaders, hname, resolveOrCreate, hidx, hs, hmem, withUploadDirs]

/-- A chunk-0 request always reinitialises the session and then runs the end
    handler on the fresh entry (server.js lines 146-178 then 242 onward). -/
theorem processUploadChunk_zero (st : ServerState) (fid name : String)
    (qp : Option FsPath) (total : Int) (body : Bytes)
    (hname : name ≠ "") :
    processUploadChunk st (ChunkHeaders.mk (some name) (some 0) (some total) (some fid)) qp body
      = acceptWrite (createSession (withUploadDirs st fid) fid name (qp.getD CWD) total)
          fid (freshSession st name (qp.getD CWD) total) 0 body (pjoin TEMP_DIR fid) := by
  simp [processUploadChunk, parseChunkHeaders, hname, resolveOrCreate,
    createSession_tracker_self, freshSession, withUploadDirs]

/-- The session state after k in-order accepted chunks of an N-chunk upload. -/
def midSession (fp : FsPath) (k sid0 : Nat) (N : Nat) (ca tid0 : Nat) : Session :=
  { finalPath := fp, receivedChunks := intRange k, streamId := sid0,
    totalChunks := (N : Int), createdAt := ca, timerId := tid0 }

theorem runUpload_go (fid name : String) (qp : Option FsPath) (N : Nat)
    (sid0 tid0 ca : Nat)
    (hname : name ≠ "")
    (hout : underDir (pjoin TEMP_DIR fid) (pjoin (qp.getD CWD) name) = false) :
    ∀ (bodies : List Bytes) (k : Nat) (st : ServerState) (acc : Bytes),
      bodies ≠ [] → 1 ≤ k → k + bodies.length = N →
      getA st.tracker fid = some (midSession (pjoin (qp.getD CWD) name) k sid0 N ca tid0) →
      getA st.files (pjoin (qp.getD CWD) name) = some acc →
      getA st.streams sid0 = some { path := pjoin (qp.getD CWD) name, closed := false } →
      (runUpload fid name qp (N : Int) st k bodies).2
          = (List.range (bodies.length - 1)).map (fun j => ChunkResponse.accepted (k + 1 + j) fid)
            ++ [ChunkResponse.complete (pjoin (qp.getD CWD) name)]
      ∧ getA (runUpload fid name qp (N : Int) st k bodies).1.tracker fid = none
      ∧ getA (runUpload fid name qp (N : Int) st k bodies).1.streams sid0
          = some { path := pjoin (qp.getD CWD) name, closed := true }
      ∧ getA (runUpload fid name qp (N : Int) st k bodies).1.timers tid0 = none
      ∧ getA (runUpload fid name qp (N : Int) st k bodies).1.files (pjoin (qp.getD CWD) name)
          = some (acc ++ bodies.flatten) := by
  intro bodies
  induction bodies with
  | nil => intro k st acc hne; exact absurd rfl hne
  | cons b rest ih =>
    intro k st acc _ hk hN htr hfp hstr
    have hidx : ((k : Int)) ≠ 0 := by
      have : k ≠ 0 := by omega
      exact_mod_cast this
    have hmem : ((k : Int)) ∉ (midSession (pjoin (qp.getD CWD) name) k sid0 N ca tid0).receivedChunks := by
      simp only [midSession]
      exact self_not_mem_intRange k
    have hstep := processUploadChunk_write st fid name qp (k : Int) (N : Int) b
      (midSession (pjoin (qp.getD CWD) name) k sid0 N ca tid0) hname hidx htr hmem
    by_cases hrest : rest = []
    · -- final chunk: the write completes the upload
      subst hrest
      have hNk : k + 1 = N := by simpa using hN
      have hlen : (((midSession (pjoin (qp.getD CWD) name) k sid0 N ca tid0).receivedChunks.length + 1 : Nat) : Int)
          = (midSession (pjoin (qp.getD CWD) name) k sid0 N ca tid0).totalChunks := by
        simp only [midSession, intRange_length]
        exact_mod_cast hNk
      have hcomp := acceptWrite_complete_spec (withUploadDirs st fid)
        fid (midSession (pjoin (qp.getD CWD) name) k sid0 N ca tid0) (k : Int) b
        (pjoin TEMP_DIR fid) acc hfp hstr hlen hout
      simp only [runUpload, hstep]
      refine ⟨?_, ?_, ?_, ?_, ?_⟩
      · simpa [midSession] using hcomp.1
      · simpa [midSession] using hcomp.2.1
      · simpa [midSession] using hcomp.2.2.1
      · simpa [midSession] using hcomp.2.2.2.1
      · simpa [midSession] using hcomp.2.2.2.2
    · -- intermediate chunk: accepted, recurse
      have hlt : k + 1 < N := by
        have : rest.length ≠ 0 := fun hz => hrest (List.length_eq_zero.mp hz)
        simp only [List.length_cons] at hN
        omega
      have hne2 : (((midSession (pjoin (qp.getD CWD) name) k sid0 N ca tid0).receivedChunks.length + 1 : Nat) : Int)
          ≠ (midSession (pjoin (qp.getD CWD) name) k sid0 N ca tid0).totalChunks := by
        simp only [midSession, intRange_length]
        intro hcast
        have : k + 1 = N := by exact_mod_cast hcast
        omega
      have hacc := acceptWrite_accepted_spec (withUploadDirs st fid)
        fid (midSession (pjoin (qp.getD CWD) name) k sid0 N ca tid0) (k : Int) b
        (pjoin TEMP_DIR fid) hne2
      have hstep2 : processUploadChunk st
          (ChunkHeaders.mk (some name) (some (k : Int)) (some (N : Int)) (some fid)) qp b
          = (acceptedState (withUploadDirs st fid) fid
              (midSession (pjoin (qp.getD CWD) name) k sid0 N ca tid0) (k : Int) b,
             ChunkResponse.accepted ((midSession (pjoin (qp.getD CWD) name) k sid0 N ca tid0).receivedChunks.length + 1) fid) := by
        rw [hstep, hacc]
      have htr2 : getA (acceptedState (withUploadDirs st fid) fid
            (midSession (pjoin (qp.getD CWD) name) k sid0 N ca tid0) (k : Int) b).tracker fid
          = some (midSession (pjoin (qp.getD CWD) name) (k + 1) sid0 N ca tid0) := by
        simp only [acceptedState, writeBody, withUploadDirs]
        rw [getA_setA_self]
        simp only [midSession, intRange_snoc]
      have hfp2 : getA (acceptedState (withUploadDirs st fid) fid
            (midSession (pjoin (qp.getD CWD) name) k sid0 N ca tid0) (k : Int) b).files
            (pjoin (qp.getD CWD) name)
          = some (acc ++ b) := by
        simp only [acceptedState, writeBody, withUploadDirs, midSession]
        simp [hfp, getA_setA_self]
      have hstr2 : getA (acceptedState (withUploadDirs st fid) fid
            (midSession (pjoin (qp.getD CWD) name) k sid0 N ca tid0) (k : Int) b).streams sid0
          = some { path := pjoin (qp.getD CWD) name, closed := false } := hstr
      have hNrec : (k + 1) + rest.length = N := by
        simp only [List.length_cons] at hN
        omega
      obtain ⟨e1, e2, e3, e4, e5⟩ := ih (k + 1)
        (acceptedState (withUploadDirs st fid) fid
          (midSession (pjoin (qp.getD CWD) name) k sid0 N ca tid0) (k : Int) b)
        (acc ++ b) hrest (by omega) hNrec htr2 hfp2 hstr2
      simp only [runUpload, hstep2]
      refine ⟨?_, e2, e3, e4, ?_⟩
      · -- the response list
        obtain ⟨m, hm⟩ : ∃ m, rest.length = m + 1 :=
          ⟨rest.length - 1, by
            have : rest.length ≠ 0 := fun hz => hrest (List.length_eq_zero.mp hz)
            omega⟩
        rw [e1]
        simp only [midSession, intRange_length, List.length_cons, hm, Nat.add_sub_cancel,
          List.range_succ_eq_map, List.map_cons, List.map_map]
        simp [Function.comp, Nat.succ_eq_add_one,
          show ∀ j : Nat, k + 1 + 1 + j = k + 1 + (j + 1) from fun j => by omega]
      · simpa using e5

theorem withUploadDirs_nextStreamId (st : ServerState) (fid : String) :
    (withUploadDirs st fid).nextStreamId = st.nextStreamId := rfl

theorem withUploadDirs_nextTimerId (st : ServerState) (fid : String) :
    (withUploadDirs st fid).nextTimerId = st.nextTimerId := rfl

theorem intRange_one : intRange 1 = [(0 : Int)] := rfl

/-- Claim C1: for a chunked upload with declared total N whose N distinct
    chunk indices are submitted in index order with bodies c0..c(N-1) and all
    accepted, the write that makes the received count equal totalChunks closes
    the output sink, cancels the pending expiry timer, removes the session
    from the registry and responds complete with the final destination path,
    and the destination file holds exactly the concatenation of the bodies. -/
theorem c1_streaming_completion (st0 : ServerState) (fid name : String)
    (qp : Option FsPath) (cs : List Bytes) (N : Nat)
    (hname : name ≠ "") (hN : 1 ≤ N) (hlen : cs.length = N)
    (hout : underDir (pjoin TEMP_DIR fid) (pjoin (qp.getD CWD) name) = false) :
    (runUpload fid name qp (N : Int) st0 0 cs).2
        = (List.range (N - 1)).map (fun j => ChunkResponse.accepted (j + 1) fid)
          ++ [ChunkResponse.complete (pjoin (qp.getD CWD) name)]
    ∧ getA (runUpload fid name qp (N : Int) st0 0 cs).1.tracker fid = none
    ∧ getA (runUpload fid name qp (N : Int) st0 0 cs).1.streams st0.nextStreamId
        = some { path := pjoin (qp.getD CWD) name, closed := true }
    ∧ getA (runUpload fid name qp (N : Int) st0 0 cs).1.timers st0.nextTimerId = none
    ∧ getA (runUpload fid name qp (N : Int) st0 0 cs).1.files (pjoin (qp.getD CWD) name)
        = some cs.flatten := by
  cases cs with
  | nil =>
    simp only [List.length_nil] at hlen
    omega
  | cons b rest =>
    have hzero := processUploadChunk_zero st0 fid name qp (N : Int) b hname
    have hfresh : getA (createSession (withUploadDirs st0 fid) fid name (qp.getD CWD) (N : Int)).tracker fid
        = some (freshSession st0 name (qp.getD CWD) (N : Int)) :=
      createSession_tracker_self (withUploadDirs st0 fid) fid name (qp.getD CWD) (N : Int)
    have hfile0 : getA (createSession (withUploadDirs st0 fid) fid name (qp.getD CWD) (N : Int)).files
        (pjoin (qp.getD CWD) name) = some [] :=
      createSession_files_self (withUploadDirs st0 fid) fid name (qp.getD CWD) (N : Int)
    have hstr0 : getA (createSession (withUploadDirs st0 fid) fid name (qp.getD CWD) (N : Int)).streams
        st0.nextStreamId = some { path := pjoin (qp.getD CWD) name, closed := false } :=
      createSession_streams_self (withUploadDirs st0 fid) fid name (qp.getD CWD) (N : Int)
    by_cases hrest : rest = []
    · -- a one-chunk upload completes on the first write
      subst hrest
      have hN1 : N = 1 := by
        simp only [List.length_cons, List.length_nil] at hlen
        omega
      subst hN1
      have hlen1 : (((freshSession st0 name (qp.getD CWD) ((1 : Nat) : Int)).receivedChunks.length + 1 : Nat) : Int)
          = (freshSession st0 name (qp.getD CWD) ((1 : Nat) : Int)).totalChunks := by
        simp [freshSession]
      have hcomp := acceptWrite_complete_spec
        (createSession (withUploadDirs st0 fid) fid name (qp.getD CWD) ((1 : Nat) : Int))
        fid (freshSession st0 name (qp.getD CWD) ((1 : Nat) : Int)) 0 b
        (pjoin TEMP_DIR fid) [] hfile0 hstr0 hlen1 hout
    -- assemble the single-response run
      simp only [runUpload, Nat.cast_zero, hzero]
      refine ⟨?_, ?_, ?_, ?_, ?_⟩
      · simpa [freshSession] using hcomp.1
      · simpa [freshSession] using hcomp.2.1
      · simpa [freshSession] using hcomp.2.2.1
      · simpa [freshSession] using hcomp.2.2.2.1
      · simpa [freshSession] using hcomp.2.2.2.2
    · -- N at least 2: the first chunk is acknowledged, then the run continues
      have hge2 : 2 ≤ N := by
        have : rest.length ≠ 0 := fun hz => hrest (List.length_eq_zero.mp hz)
        simp only [List.length_cons] at hlen
        omega
      have hne1 : (((freshSession st0 name (qp.getD CWD) (N : Int)).receivedChunks.length + 1 : Nat) : Int)
          ≠ (freshSession st0 name (qp.getD CWD) (N : Int)).totalChunks := by
        simp only [freshSession, List.length_nil]
        intro hcast
        have : 1 = N := by exact_mod_cast hcast
        omega
      have hacc := acceptWrite_accepted_spec
        (createSession (withUploadDirs st0 fid) fid name (qp.getD CWD) (N : Int))
        fid (freshSession st0 name (qp.getD CWD) (N : Int)) 0 b (pjoin TEMP_DIR fid) hne1
      have htr1 : getA (acceptedState
            (createSession (withUploadDirs st0 fid) fid name (qp.getD CWD) (N : Int))
            fid (freshSession st0 name (qp.getD CWD) (N : Int)) 0 b).tracker fid
          = some (midSession (pjoin (qp.getD CWD) name) 1 st0.nextStreamId N st0.now st0.nextTimerId) := by
        simp only [acceptedState, writeBody]
        rw [getA_setA_self]
        simp [freshSession, midSession, intRange_one]
      have hfp1 : getA (acceptedState
            (createSession (withUploadDirs st0 fid) fid name (qp.getD CWD) (N : Int))
            fid (freshSession st0 name (qp.getD CWD) (N : Int)) 0 b).files (pjoin (qp.getD CWD) name)
          = some b := by
        simp only [acceptedState, writeBody, freshSession]
        simp [hfile0, getA_setA_self]
      have hstr1 : getA (acceptedState
            (createSession (withUploadDirs st0 fid) fid name (qp.getD CWD) (N : Int))
            fid (freshSession st0 name (qp.getD CWD) (N : Int)) 0 b).streams st0.nextStreamId
          = some { path := pjoin (qp.getD CWD) name, closed := false } := hstr0
      have hNrec : 1 + rest.length = N := by
        simp only [List.length_cons] at hlen
        omega
      obtain ⟨e1, e2, e3, e4, e5⟩ := runUpload_go fid name qp N st0.nextStreamId st0.nextTimerId
        st0.now hname hout rest 1
        (acceptedState (createSession (withUploadDirs st0 fid) fid name (qp.getD CWD) (N : Int))
          fid (freshSession st0 name (qp.getD CWD) (N : Int)) 0 b)
        b hrest (by omega) hNrec htr1 hfp1 hstr1
      simp only [runUpload, Nat.cast_zero, hzero, hacc]
      refine ⟨?_, e2, e3, e4, ?_⟩
      · obtain ⟨m, hm⟩ : ∃ m, rest.length = m + 1 :=
          ⟨rest.length - 1, by
            have : rest.length ≠ 0 := fun hz => hrest (List.length_eq_zero.mp hz)
            omega⟩
        rw [e1]
        have hNm : N - 1 = m + 1 := by omega
        simp only [freshSession, List.length_nil, hm, hNm, Nat.add_sub_cancel,
          List.range_succ_eq_map, List.map_cons, List.map_map]
        simp [Function.comp, Nat.succ_eq_add_one,
          show ∀ j : Nat, 1 + 1 + j = j + 1 + 1 from fun j => by omega]
      · simpa using e5

/-- Concrete instance of C1: a two-chunk upload of [1,2] then [3]. -/
theorem c1_streaming_completion_witness :
    (runUpload "f1" "a.txt" (some ["data"]) ((2 : Nat) : Int) initState 0 [[1, 2], [3]]).2
        = (List.range (2 - 1)).map (fun j => ChunkResponse.accepted (j + 1) "f1")
          ++ [ChunkResponse.complete (pjoin ((some ["data"]).getD CWD) "a.txt")]
    ∧ getA (runUpload "f1" "a.txt" (some ["data"]) ((2 : Nat) : Int) initState 0 [[1, 2], [3]]).1.tracker "f1" = none
    ∧ getA (runUpload "f1" "a.txt" (some ["data"]) ((2 : Nat) : Int) initState 0 [[1, 2], [3]]).1.streams initState.nextStreamId
        = some { path := pjoin ((some ["data"]).getD CWD) "a.txt", closed := true }
    ∧ getA (runUpload "f1" "a.txt" (some ["data"]) ((2 : Nat) : Int) initState 0 [[1, 2], [3]]).1.timers initState.nextTimerId = none
    ∧ getA (runUpload "f1" "a.txt" (some ["data"]) ((2 : Nat) : Int) initState 0 [[1, 2], [3]]).1.files (pjoin ((some ["data"]).getD CWD) "a.txt")
        = some ([[1, 2], [3]] : List Bytes).flatten :=
  c1_streaming_completion initState "f1" "a.txt" (some ["data"]) [[1, 2], [3]] 2
    (by decide) (by decide) (by decide) (by decide)

/-- A live mid-upload fixture: chunks 0 and 1 of 3 already received. -/
def demoSession : Session :=
  { finalPath := ["data", "a.txt"], receivedChunks := [0, 1], streamId := 0,
    totalChunks := 3, createdAt := 0, timerId := 0 }

def demoState : ServerState :=
  { tracker := [("f1", demoSession)],
    streams := [(0, { path := ["data", "a.txt"], closed := false })],
    nextStreamId := 1,
    timers := [(0, ("f1", UPLOAD_TIMEOUT))],
    nextTimerId := 1,
    files := [(["data", "a.txt"], [7, 8])],
    dirs := [["data"], TEMP_DIR],
    now := 5 }

/-- Claim C2 counterexample: retransmitting chunk index 0 of a live two-chunk
    session is not answered AlreadyReceived; the handler reinitialises the
    session, truncates the file and writes the retried body again, changing
    the stored byte length from 1 to 2. -/
theorem c2_counterexample :
    (processUploadChunk
        (processUploadChunk initState (ChunkHeaders.mk (some "a.txt") (some 0) (some 2) (some "f1"))
          (some ["data"]) [7]).1
        (ChunkHeaders.mk (some "a.txt") (some 0) (some 2) (some "f1")) (some ["data"]) [9, 9]).2
      ≠ ChunkResponse.alreadyReceived
    ∧ getA (processUploadChunk
        (processUploadChunk initState (ChunkHeaders.mk (some "a.txt") (some 0) (some 2) (some "f1"))
          (some ["data"]) [7]).1
        (ChunkHeaders.mk (some "a.txt") (some 0) (some 2) (some "f1")) (some ["data"]) [9, 9]).1.files
        ["data", "a.txt"]
      = some [9, 9]
    ∧ getA (processUploadChunk initState (ChunkHeaders.mk (some "a.txt") (some 0) (some 2) (some "f1"))
          (some ["data"]) [7]).1.files ["data", "a.txt"]
      = some [7] := by decide

/-- Claim C2 amended: for every live session and every chunk index other than
    0 that is already in receivedChunks, the retry is answered AlreadyReceived
    and neither the files, the registry, nor the streams change; a chunk-0
    retry instead reinitialises the session and rewrites the file. -/
theorem c2_idempotent_retry (st : ServerState) (fid name : String)
    (qp : Option FsPath) (idx total : Int) (body : Bytes) (s : Session)
    (hname : name ≠ "") (hidx : idx ≠ 0)
    (hs : getA st.tracker fid = some s) (hmem : idx ∈ s.receivedChunks) :
    (processUploadChunk st (ChunkHeaders.mk (some name) (some idx) (some total) (some fid)) qp body).2
      = ChunkResponse.alreadyReceived
    ∧ (processUploadChunk st (ChunkHeaders.mk (some name) (some idx) (some total) (some fid)) qp body).1.files
      = st.files
    ∧ (processUploadChunk st (ChunkHeaders.mk (some name) (some idx) (some total) (some fid)) qp body).1.tracker
      = st.tracker
    ∧ (processUploadChunk st (ChunkHeaders.mk (some name) (some idx) (some total) (some fid)) qp body).1.streams
      = st.streams := by
  rw [processUploadChunk_dup st fid name qp idx total body s hname hidx hs hmem]
  exact ⟨rfl, rfl, rfl, rfl⟩

/-- Concrete instance of the amended C2: retrying chunk 1 on the fixture. -/
theorem c2_idempotent_retry_witness :
    (processUploadChunk demoState (ChunkHeaders.mk (some "a.txt") (some 1) (some 3) (some "f1"))
        (some ["data"]) [9]).2 = ChunkResponse.alreadyReceived
    ∧ (processUploadChunk demoState (ChunkHeaders.mk (some "a.txt") (some 1) (some 3) (some "f1"))
        (some ["data"]) [9]).1.files = demoState.files
    ∧ (processUploadChunk demoState (ChunkHeaders.mk (some "a.txt") (some 1) (some 3) (some "f1"))
        (some ["data"]) [9]).1.tracker = demoState.tracker
    ∧ (processUploadChunk demoState (ChunkHeaders.mk (some "a.txt") (some 1) (some 3) (some "f1"))
        (some ["data"]) [9]).1.streams = demoState.streams :=
  c2_idempotent_retry demoState "f1" "a.txt" (some ["data"]) 1 3 [9] demoSession
    (by decide) (by decide) (by decide) (by decide)

/-- Claim C3 counterexample: resolving an already-registered id with a chunk-0
    request does not return the existing session unchanged; the entry is
    replaced by a fresh session and the state is mutated. -/
theorem c3_counterexample :
    (resolveOrCreate demoState "f1" "a.txt" ["data"] 0 3).2 ≠ some demoSession
    ∧ (resolveOrCreate demoState "f1" "a.txt" ["data"] 0 3).1 ≠ demoState := by decide

/-- Claim C3 amended: for every registered id, resolution by a request whose
    chunk index is not 0 returns the existing session unchanged and leaves the
    whole state (registry, sinks, receivedChunks, timers) untouched; a chunk-0
    request instead replaces the entry. -/
theorem c3_resolve_existing (st : ServerState) (fid name : String) (tp : FsPath)
    (idx total : Int) (s : Session) (hidx : idx ≠ 0)
    (hs : getA st.tracker fid = some s) :
    resolveOrCreate st fid name tp idx total = (st, some s) := by
  simp [resolveOrCreate, hidx, hs]

/-- Concrete instance of the amended C3. -/
theorem c3_resolve_existing_witness :
    resolveOrCreate demoState "f1" "a.txt" ["data"] 5 3 = (demoState, some demoSession) :=
  c3_resolve_existing demoState "f1" "a.txt" ["data"] 5 3 demoSession (by decide) (by decide)

/-- Claim C4 counterexample: a chunk-5 request for an unknown id is rejected
    with the restart flag, but directories are created on disk: the dirs list
    changes (the uploads directory and the per-id staging directory). -/
theorem c4_counterexample :
    (processUploadChunk initState (ChunkHeaders.mk (some "a.txt") (some 5) none (some "zz")) none []).2
      = ChunkResponse.sessionNotFound true
    ∧ (processUploadChunk initState (ChunkHeaders.mk (some "a.txt") (some 5) none (some "zz")) none []).1.dirs
      ≠ initState.dirs := by decide

/-- Claim C4 amended: a chunk request whose id has no session and whose index
    is not 0 fails with the session-not-found response carrying the restart
    flag; no session is created, no file is created and no sink or timer is
    opened - but the handler does create the uploads directory and the per-id
    staging directory before the check. -/
theorem c4_unknown_session (st : ServerState) (fid name : String)
    (qp : Option FsPath) (idx total : Int) (body : Bytes)
    (hname : name ≠ "") (hidx : idx ≠ 0)
    (hs : getA st.tracker fid = none) :
    (processUploadChunk st (ChunkHeaders.mk (some name) (some idx) (some total) (some fid)) qp body).2
      = ChunkResponse.sessionNotFound true
    ∧ (processUploadChunk st (ChunkHeaders.mk (some name) (some idx) (some total) (some fid)) qp body).1.tracker
      = st.tracker
    ∧ (processUploadChunk st (ChunkHeaders.mk (some name) (some idx) (some total) (some fid)) qp body).1.files
      = st.files
    ∧ (processUploadChunk st (ChunkHeaders.mk (some name) (some idx) (some total) (some fid)) qp body).1.streams
      = st.streams
    ∧ (processUploadChunk st (ChunkHeaders.mk (some name) (some idx) (some total) (some fid)) qp body).1.timers
      = st.timers := by
  rw [processUploadChunk_notfound st fid name qp idx total body hname hidx hs]
  exact ⟨rfl, rfl, rfl, rfl, rfl⟩

/-- Concrete instance of the amended C4. -/
theorem c4_unknown_session_witness :
    (processUploadChunk initState (ChunkHeaders.mk (some "a.txt") (some 5) (some 9) (some "zz")) none []).2
      = ChunkResponse.sessionNotFound true
    ∧ (processUploadChunk initState (ChunkHeaders.mk (some "a.txt") (some 5) (some 9) (some "zz")) none []).1.tracker
      = initState.tracker
    ∧ (processUploadChunk initState (ChunkHeaders.mk (some "a.txt") (some 5) (some 9) (some "zz")) none []).1.files
      = initState.files
    ∧ (processUploadChunk initState (ChunkHeaders.mk (some "a.txt") (some 5) (some 9) (some "zz")) none []).1.streams
      = initState.streams
    ∧ (processUploadChunk initState (ChunkHeaders.mk (some "a.txt") (some 5) (some 9) (some "zz")) none []).1.timers
      = initState.timers :=
  c4_unknown_session initState "zz" "a.txt" none 5 9 [] (by decide) (by decide) (by decide)

theorem setA_setA_self {κ α : Type} [DecidableEq κ] (m : List (κ × α)) (k : κ) (v w : α) :
    setA (setA m k v) k w = setA m k w := by
  induction m with
  | nil => simp [setA]
  | cons e t ih => by_cases h : e.1 = k <;> simp [setA, h, ih]

/-- The verification loop returns the smallest index in range whose staging
    file is absent. -/
theorem findMissing_spec (files : List (FsPath × Bytes)) (tempDir : FsPath) :
    ∀ (fuel k i : Nat), k < fuel →
      getA files (chunkFilePath tempDir (i + k)) = none →
      (∀ j, j < k → (getA files (chunkFilePath tempDir (i + j))).isSome) →
      findMissing files tempDir fuel i = some (i + k) := by
  intro fuel
  induction fuel with
  | zero => intro k i hk; omega
  | succ f ihf =>
    intro k i hk hnone hall
    cases k with
    | zero =>
      simp only [Nat.add_zero] at hnone
      simp [findMissing, hnone]
    | succ k' =>
      have h0 : (getA files (chunkFilePath tempDir i)).isSome := by
        simpa using hall 0 (Nat.succ_pos k')
      have h0ne : ¬ (getA files (chunkFilePath tempDir i) = none) := by
        intro hz
        rw [hz] at h0
        simp at h0
      have hrec := ihf k' (i + 1) (by omega)
        (by
          have : i + 1 + k' = i + (k' + 1) := by omega
          rw [this]
          exact hnone)
        (by
          intro j hj
          have : i + 1 + j = i + (j + 1) := by omega
          rw [this]
          exact hall (j + 1) (by omega))
      simp only [findMissing, h0ne, if_false]
      rw [hrec]
      congr 1
      omega

/-- When every index in range has a staging file, the verification loop
    passes. -/
theorem findMissing_none (files : List (FsPath × Bytes)) (tempDir : FsPath) :
    ∀ (fuel i : Nat),
      (∀ j, j < fuel → (getA files (chunkFilePath tempDir (i + j))).isSome) →
      findMissing files tempDir fuel i = none := by
  intro fuel
  induction fuel with
  | zero => intro i _; simp [findMissing]
  | succ f ihf =>
    intro i hall
    have h0 : (getA files (chunkFilePath tempDir i)).isSome := by
      simpa using hall 0 (Nat.succ_pos f)
    have h0ne : ¬ (getA files (chunkFilePath tempDir i) = none) := by
      intro hz
      rw [hz] at h0
      simp at h0
    simp only [findMissing, h0ne, if_false]
    exact ihf (i + 1) (fun j hj => by
      have : i + 1 + j = i + (j + 1) := by omega
      rw [this]
      exact hall (j + 1) (by omega))

/-- The assembly loop reads the chunk files strictly in ascending index order
    and ends the output stream only after the last one. -/
theorem combineChunksGo_trace (files : List (FsPath × Bytes)) (tempDir : FsPath) :
    ∀ (fuel i : Nat),
      (combineChunksGo files tempDir fuel i).2
        = (List.range fuel).map (fun j => AsmEvent.readChunk (i + j)) ++ [AsmEvent.closeSink] := by
  intro fuel
  induction fuel with
  | zero => intro i; simp [combineChunksGo]
  | succ f ihf =>
    intro i
    simp only [combineChunksGo, ihf (i + 1), List.range_succ_eq_map, List.map_cons,
      List.map_map, List.cons_append]
    simp [Function.comp, Nat.succ_eq_add_one,
      show ∀ j : Nat, i + 1 + j = i + (j + 1) from fun j => by omega]

/-- The assembly loop appends exactly the chunk contents, in index order. -/
theorem combineChunksGo_content (files : List (FsPath × Bytes)) (tempDir : FsPath) :
    ∀ (cs : List Bytes) (i : Nat),
      (∀ j, j < cs.length → getA files (chunkFilePath tempDir (i + j)) = some (cs.getD j [])) →
      (combineChunksGo files tempDir cs.length i).1 = cs.flatten := by
  intro cs
  induction cs with
  | nil => intro i _; simp [combineChunksGo]
  | cons c cst ih =>
    intro i hall
    have h0 : getA files (chunkFilePath tempDir i) = some c := by
      simpa using hall 0 (Nat.succ_pos cst.length)
    have hrec := ih (i + 1) (fun j hj => by
      have : i + 1 + j = i + (j + 1) := by omega
      rw [this]
      simpa using hall (j + 1) (by simp only [List.length_cons]; omega))
    simp only [List.length_cons, combineChunksGo, h0, hrec]
    simp

/-- Claim C5: a store-and-assemble request with declared total T and some
    chunk file in [0,T) absent fails naming the smallest absent index, and
    the state is untouched: no bytes are written and the output sink is not
    even opened. -/
theorem c5_missing_chunk (st : ServerState) (name fid : String) (qp : Option FsPath)
    (total : Int) (i0 : Nat)
    (hname : name ≠ "") (hfid : fid ≠ "") (htz : total ≠ 0)
    (hdir : st.dirs.contains (pjoin TEMP_DIR fid) = true)
    (hi0 : i0 < total.toNat)
    (hmiss : getA st.files (chunkFilePath (pjoin TEMP_DIR fid) i0) = none)
    (hbefore : ∀ j, j < i0 → (getA st.files (chunkFilePath (pjoin TEMP_DIR fid) j)).isSome) :
    processCombineChunks st (CombineHeaders.mk (some name) (some fid) (some total)) qp
      = (st, CombineResponse.missingChunk i0, []) := by
  have hfind : findMissing st.files (pjoin TEMP_DIR fid) total.toNat 0 = some i0 := by
    have := findMissing_spec st.files (pjoin TEMP_DIR fid) total.toNat i0 0 hi0
      (by simpa using hmiss) (by simpa using hbefore)
    simpa using this
  have hdirm : pjoin TEMP_DIR fid ∈ st.dirs := by simpa using hdir
  simp [processCombineChunks, hname, hfid, htz, hdirm, hfind]

/-- Concrete instance of C5, matching the spec example: total 3 with chunk
    files 0 and 2 present fails with MissingChunk 1 and writes nothing. -/
def demoStagingState : ServerState :=
  { initState with
    dirs := [pjoin TEMP_DIR "cid", TEMP_DIR],
    files := [(chunkFilePath (pjoin TEMP_DIR "cid") 0, [1]),
              (chunkFilePath (pjoin TEMP_DIR "cid") 2, [3])] }

theorem c5_missing_chunk_witness :
    processCombineChunks demoStagingState
        (CombineHeaders.mk (some "out.bin") (some "cid") (some 3)) (some ["data"])
      = (demoStagingState, CombineResponse.missingChunk 1, []) :=
  c5_missing_chunk demoStagingState "out.bin" "cid" (some ["data"]) 3 1
    (by decide) (by decide) (by decide) (by decide) (by decide) (by decide) (by decide)

/-- Claim C6: with all T chunk files present, assembly reads them strictly in
    ascending index order, closes the sink only after the last append, stores
    exactly the in-order concatenation at the final path, deletes the staging
    directory with all its contents, and reports the final path. -/
theorem c6_assemble (st : ServerState) (name fid : String) (qp : Option FsPath)
    (T : Nat) (cs : List Bytes)
    (hname : name ≠ "") (hfid : fid ≠ "") (hT : 1 ≤ T) (hcs : cs.length = T)
    (hdir : st.dirs.contains (pjoin TEMP_DIR fid) = true)
    (hout : underDir (pjoin TEMP_DIR fid) (pjoin (qp.getD CWD) name) = false)
    (hchunks : ∀ j, j < T →
      getA st.files (chunkFilePath (pjoin TEMP_DIR fid) j) = some (cs.getD j [])) :
    (processCombineChunks st (CombineHeaders.mk (some name) (some fid) (some (T : Int))) qp).2.1
        = CombineResponse.assembled (pjoin (qp.getD CWD) name)
    ∧ (processCombineChunks st (CombineHeaders.mk (some name) (some fid) (some (T : Int))) qp).2.2
        = (List.range T).map AsmEvent.readChunk ++ [AsmEvent.closeSink]
    ∧ getA (processCombineChunks st (CombineHeaders.mk (some name) (some fid) (some (T : Int))) qp).1.files
        (pjoin (qp.getD CWD) name) = some cs.flatten
    ∧ getA (processCombineChunks st (CombineHeaders.mk (some name) (some fid) (some (T : Int))) qp).1.streams
        st.nextStreamId = some { path := pjoin (qp.getD CWD) name, closed := true }
    ∧ (processCombineChunks st (CombineHeaders.mk (some name) (some fid) (some (T : Int))) qp).1.files
        = (setA st.files (pjoin (qp.getD CWD) name) cs.flatten).filter
            (fun e => !(underDir (pjoin TEMP_DIR fid) e.1))
    ∧ pjoin TEMP_DIR fid ∉
        (processCombineChunks st (CombineHeaders.mk (some name) (some fid) (some (T : Int))) qp).1.dirs := by
  have htz : ((T : Int)) ≠ 0 := by
    have : T ≠ 0 := by omega
    exact_mod_cast this
  have htn : ((T : Int)).toNat = T := by simp
  have hisSome : ∀ j, j < T → (getA st.files (chunkFilePath (pjoin TEMP_DIR fid) (0 + j))).isSome := by
    intro j hj
    rw [Nat.zero_add, hchunks j hj]
    rfl
  have hfind : findMissing st.files (pjoin TEMP_DIR fid) T 0 = none :=
    findMissing_none st.files (pjoin TEMP_DIR fid) T 0 hisSome
  -- the files seen by the assembly loop: output truncated first
  have hne : ∀ j : Nat, chunkFilePath (pjoin TEMP_DIR fid) j ≠ pjoin (qp.getD CWD) name :=
    fun j => ne_of_not_underDir _ hout
  have hchunks2 : ∀ j, j < cs.length →
      getA (setA st.files (pjoin (qp.getD CWD) name) []) (chunkFilePath (pjoin TEMP_DIR fid) (0 + j))
        = some (cs.getD j []) := by
    intro j hj
    rw [Nat.zero_add, getA_setA_ne _ _ _ _ (hne j)]
    exact hchunks j (hcs ▸ hj)
  have hcontent := combineChunksGo_content (setA st.files (pjoin (qp.getD CWD) name) [])
    (pjoin TEMP_DIR fid) cs 0 hchunks2
  have htrace := combineChunksGo_trace (setA st.files (pjoin (qp.getD CWD) name) [])
    (pjoin TEMP_DIR fid) T 0
  have hcond1 : ¬(name = "" ∨ fid = "" ∨ ((T : Int)) = 0) := by
    push_neg
    exact ⟨hname, hfid, htz⟩
  simp only [processCombineChunks, Option.getD_some]
  rw [if_neg hcond1, if_pos hdir]
  simp only [htn, hfind]
  refine ⟨trivial, ?_, ?_, ?_, ?_, ?_⟩
  · -- the trace: strictly ascending reads, close after the last
    rw [htrace]
    simp
  · -- the assembled file holds the in-order concatenation
    simp only [removeDir, endStream_files]
    rw [getA_filter_keep]
    rw [setA_setA_self, getA_setA_self, ← hcs, hcontent]
    intro v
    simp [hout]
  · -- the output sink is closed
    simp only [removeDir]
    refine endStream_getA_self _ st.nextStreamId
      (WStream.mk (pjoin (qp.getD CWD) name) false) ?_
    exact getA_setA_self _ _ _
  · -- all files below the staging directory are gone
    simp only [removeDir, endStream_files]
    rw [setA_setA_self, ← hcs, hcontent]
  · -- the staging directory itself is gone
    simp only [removeDir, endStream_dirs]
    intro hmem
    rw [List.mem_filter] at hmem
    simp at hmem

/-- A staging directory holding all three chunk files. -/
def demoFullStaging : ServerState :=
  { initState with
    dirs := [pjoin TEMP_DIR "cid", TEMP_DIR],
    files := [(chunkFilePath (pjoin TEMP_DIR "cid") 0, [1]),
              (chunkFilePath (pjoin TEMP_DIR "cid") 1, [2, 2]),
              (chunkFilePath (pjoin TEMP_DIR "cid") 2, [3])] }

/-- Concrete instance of C6: three chunks assembled in order. -/
theorem c6_assemble_witness :
    (processCombineChunks demoFullStaging
        (CombineHeaders.mk (some "out.bin") (some "cid") (some ((3 : Nat) : Int))) (some ["data"])).2.1
        = CombineResponse.assembled (pjoin ((some ["data"] : Option FsPath).getD CWD) "out.bin")
    ∧ (processCombineChunks demoFullStaging
        (CombineHeaders.mk (some "out.bin") (some "cid") (some ((3 : Nat) : Int))) (some ["data"])).2.2
        = (List.range 3).map AsmEvent.readChunk ++ [AsmEvent.closeSink]
    ∧ getA (processCombineChunks demoFullStaging
        (CombineHeaders.mk (some "out.bin") (some "cid") (some ((3 : Nat) : Int))) (some ["data"])).1.files
        (pjoin ((some ["data"] : Option FsPath).getD CWD) "out.bin")
        = some ([[1], [2, 2], [3]] : List Bytes).flatten
    ∧ getA (processCombineChunks demoFullStaging
        (CombineHeaders.mk (some "out.bin") (some "cid") (some ((3 : Nat) : Int))) (some ["data"])).1.streams
        demoFullStaging.nextStreamId
        = some { path := pjoin ((some ["data"] : Option FsPath).getD CWD) "out.bin", closed := true }
    ∧ (processCombineChunks demoFullStaging
        (CombineHeaders.mk (some "out.bin") (some "cid") (some ((3 : Nat) : Int))) (some ["data"])).1.files
        = (setA demoFullStaging.files (pjoin ((some ["data"] : Option FsPath).getD CWD) "out.bin")
            ([[1], [2, 2], [3]] : List Bytes).flatten).filter
            (fun e => !(underDir (pjoin TEMP_DIR "cid") e.1))
    ∧ pjoin TEMP_DIR "cid" ∉ (processCombineChunks demoFullStaging
        (CombineHeaders.mk (some "out.bin") (some "cid") (some ((3 : Nat) : Int))) (some ["data"])).1.dirs :=
  c6_assemble demoFullStaging "out.bin" "cid" (some ["data"]) 3 [[1], [2, 2], [3]]
    (by decide) (by decide) (by decide) (by decide) (by decide) (by decide) (by decide)

/-- Claim C8: when the write saturates the sink (buffered bytes exceed the
    high-water mark), the end handler waits for the drain signal before
    marking the chunk received and before acknowledging. -/
theorem c8_backpressure (sink : SinkState) (bodyLen : Nat) (idx : Int)
    (hsat : sink.highWaterMark < sink.buffered + bodyLen) :
    endHandlerEvents sink bodyLen idx
      = [WEvent.wWrite bodyLen, WEvent.wDrainWait, WEvent.wMarkReceived idx, WEvent.wRespond] := by
  have hfull : ¬ (sink.buffered + bodyLen < sink.highWaterMark) := by omega
  simp [endHandlerEvents, sinkWrite, hfull]

/-- Concrete instance of C8: 3 buffered + 4 written exceeds a 5-byte mark. -/
theorem c8_backpressure_witness :
    endHandlerEvents (SinkState.mk 3 5) 4 7
      = [WEvent.wWrite 4, WEvent.wDrainWait, WEvent.wMarkReceived 7, WEvent.wRespond] :=
  c8_backpressure (SinkState.mk 3 5) 4 7 (by decide)

/-- Claim C10: a missing chunk-index header is treated as index 0, a missing
    total-chunks header as total 1, and a missing id header as the generated
    timestamp id; a chunk request with none of these headers creates a session
    with totalChunks 1 that is finalized immediately: the response is complete
    with the final path, the session is gone, and the file holds the body. -/
theorem c10_header_defaults (st0 : ServerState) (name : String) (qp : Option FsPath)
    (body : Bytes)
    (hname : name ≠ "")
    (hout : underDir (pjoin TEMP_DIR (toString st0.now)) (pjoin (qp.getD CWD) name) = false) :
    parseChunkHeaders (ChunkHeaders.mk (some name) none none none) st0.now
      = (name, 0, 1, toString st0.now)
    ∧ (processUploadChunk st0 (ChunkHeaders.mk (some name) none none none) qp body).2
      = ChunkResponse.complete (pjoin (qp.getD CWD) name)
    ∧ getA (processUploadChunk st0 (ChunkHeaders.mk (some name) none none none) qp body).1.tracker
        (toString st0.now) = none
    ∧ getA (processUploadChunk st0 (ChunkHeaders.mk (some name) none none none) qp body).1.files
        (pjoin (qp.getD CWD) name) = some body := by
  have hpar : parseChunkHeaders (ChunkHeaders.mk (some name) none none none) st0.now
      = parseChunkHeaders (ChunkHeaders.mk (some name) (some 0) (some 1) (some (toString st0.now))) st0.now := by
    simp [parseChunkHeaders]
  have heq : processUploadChunk st0 (ChunkHeaders.mk (some name) none none none) qp body
      = processUploadChunk st0
          (ChunkHeaders.mk (some name) (some 0) (some 1) (some (toString st0.now))) qp body := by
    simp only [processUploadChunk, hpar]
  have hzero := processUploadChunk_zero st0 (toString st0.now) name qp 1 body hname
  have hlen1 : (((freshSession st0 name (qp.getD CWD) 1).receivedChunks.length + 1 : Nat) : Int)
      = (freshSession st0 name (qp.getD CWD) 1).totalChunks := by
    simp [freshSession]
  have hcomp := acceptWrite_complete_spec
    (createSession (withUploadDirs st0 (toString st0.now)) (toString st0.now) name (qp.getD CWD) 1)
    (toString st0.now) (freshSession st0 name (qp.getD CWD) 1) 0 body
    (pjoin TEMP_DIR (toString st0.now)) []
    (createSession_files_self (withUploadDirs st0 (toString st0.now)) (toString st0.now) name (qp.getD CWD) 1)
    (createSession_streams_self (withUploadDirs st0 (toString st0.now)) (toString st0.now) name (qp.getD CWD) 1)
    hlen1 hout
  refine ⟨rfl, ?_, ?_, ?_⟩
  · rw [heq, hzero]
    simpa [freshSession] using hcomp.1
  · rw [heq, hzero]
    simpa [freshSession] using hcomp.2.1
  · rw [heq, hzero]
    simpa [freshSession] using hcomp.2.2.2.2

/-- Concrete instance of C10: a bare request with only a file name. -/
theorem c10_header_defaults_witness :
    parseChunkHeaders (ChunkHeaders.mk (some "a.txt") none none none) initState.now
      = ("a.txt", 0, 1, toString initState.now)
    ∧ (processUploadChunk initState (ChunkHeaders.mk (some "a.txt") none none none)
        (some ["data"]) [4, 5]).2
      = ChunkResponse.complete (pjoin ((some ["data"] : Option FsPath).getD CWD) "a.txt")
    ∧ getA (processUploadChunk initState (ChunkHeaders.mk (some "a.txt") none none none)
        (some ["data"]) [4, 5]).1.tracker (toString initState.now) = none
    ∧ getA (processUploadChunk initState (ChunkHeaders.mk (some "a.txt") none none none)
        (some ["data"]) [4, 5]).1.files (pjoin ((some ["data"] : Option FsPath).getD CWD) "a.txt")
      = some [4, 5] :=
  c10_header_defaults initState "a.txt" (some ["data"]) [4, 5] (by decide) (by decide)

/-! ### Expiry teardown lemmas -/

theorem sweepStep_files (now : Nat) (acc : ServerState) (e : String × Session) :
    (sweepStep now acc e).files = acc.files := by
  unfold sweepStep
  split
  · rw [endStream_files]
  · rfl

theorem sweepFold_files (now : Nat) :
    ∀ (l : List (String × Session)) (acc : ServerState),
      (l.foldl (sweepStep now) acc).files = acc.files := by
  intro l
  induction l with
  | nil => intro acc; rfl
  | cons e t ih =>
    intro acc
    rw [List.foldl_cons, ih, sweepStep_files]

theorem sweepStep_tracker_none (now : Nat) (acc : ServerState) (e : String × Session)
    (fid : String) (h : getA acc.tracker fid = none) :
    getA (sweepStep now acc e).tracker fid = none := by
  unfold sweepStep
  split
  · by_cases he : e.1 = fid
    · rw [← he]
      exact getA_delA_self _ _
    · rw [getA_delA_ne _ _ _ (fun hh => he hh.symm), endStream_tracker]
      exact h
  · exact h

theorem sweepStep_streams_closed (now : Nat) (acc : ServerState) (e : String × Session)
    (sid : Nat) (p : FsPath) (h : getA acc.streams sid = some { path := p, closed := true }) :
    getA (sweepStep now acc e).streams sid = some { path := p, closed := true } := by
  unfold sweepStep
  split
  · exact endStream_closed_stable acc sid e.2.streamId p h
  · exact h

theorem sweepStep_streams_pathIs (now : Nat) (acc : ServerState) (e : String × Session)
    (sid : Nat) (p : FsPath) (b : Bool)
    (h : getA acc.streams sid = some { path := p, closed := b }) :
    ∃ b', getA (sweepStep now acc e).streams sid = some { path := p, closed := b' } := by
  unfold sweepStep
  split
  · exact endStream_pathIs acc sid e.2.streamId p b h
  · exact ⟨b, h⟩

/-- Once a session is torn down, the rest of the sweep keeps it gone and its
    stream closed. -/
theorem sweep_post (now : Nat) (fid : String) (sid : Nat) (p : FsPath) :
    ∀ (l : List (String × Session)) (acc : ServerState),
      getA acc.tracker fid = none →
      getA acc.streams sid = some { path := p, closed := true } →
      getA (l.foldl (sweepStep now) acc).tracker fid = none
      ∧ getA (l.foldl (sweepStep now) acc).streams sid = some { path := p, closed := true } := by
  intro l
  induction l with
  | nil => intro acc h1 h2; exact ⟨h1, h2⟩
  | cons e t ih =>
    intro acc h1 h2
    rw [List.foldl_cons]
    exact ih _ (sweepStep_tracker_none now acc e fid h1)
      (sweepStep_streams_closed now acc e sid p h2)

/-- The sweep tears down every stale entry it encounters. -/
theorem sweep_hit (now : Nat) (fid : String) (u : Session) (p : FsPath)
    (stale : UPLOAD_TIMEOUT < now - u.createdAt) :
    ∀ (l : List (String × Session)) (acc : ServerState),
      (fid, u) ∈ l →
      (∃ b, getA acc.streams u.streamId = some { path := p, closed := b }) →
      getA (l.foldl (sweepStep now) acc).tracker fid = none
      ∧ getA (l.foldl (sweepStep now) acc).streams u.streamId
          = some { path := p, closed := true } := by
  intro l
  induction l with
  | nil => intro acc hmem; simp at hmem
  | cons e t ih =>
    intro acc hmem hstr
    obtain ⟨b, hb⟩ := hstr
    rcases List.mem_cons.mp hmem with he | ht
    · subst he
      rw [List.foldl_cons]
      have hcond : UPLOAD_TIMEOUT < now - ((fid, u) : String × Session).2.createdAt := stale
      have h1 : getA (sweepStep now acc (fid, u)).tracker fid = none := by
        unfold sweepStep
        rw [if_pos hcond]
        exact getA_delA_self _ _
      have h2 : getA (sweepStep now acc (fid, u)).streams u.streamId
          = some { path := p, closed := true } := by
        unfold sweepStep
        rw [if_pos hcond]
        exact endStream_getA_self acc u.streamId (WStream.mk p b) hb
      exact sweep_post now fid u.streamId p t _ h1 h2
    · rw [List.foldl_cons]
      exact ih _ ht (sweepStep_streams_pathIs now acc e u.streamId p b hb)

/-- Chunk activity with a nonzero index never arms or modifies a timer: every
    timer entry is either untouched or (on completion) cancelled. -/
theorem processUploadChunk_timers_nonzero (st : ServerState) (fid name : String)
    (qp : Option FsPath) (idx total : Int) (body : Bytes)
    (hname : name ≠ "") (hidx : idx ≠ 0) (t : Nat) :
    getA (processUploadChunk st (ChunkHeaders.mk (some name) (some idx) (some total) (some fid)) qp body).1.timers t
      = getA st.timers t
    ∨ getA (processUploadChunk st (ChunkHeaders.mk (some name) (some idx) (some total) (some fid)) qp body).1.timers t
      = none := by
  cases hs : getA st.tracker fid with
  | none =>
    rw [processUploadChunk_notfound st fid name qp idx total body hname hidx hs]
    exact Or.inl rfl
  | some s =>
    by_cases hmem : idx ∈ s.receivedChunks
    · rw [processUploadChunk_dup st fid name qp idx total body s hname hidx hs hmem]
      exact Or.inl rfl
    · rw [processUploadChunk_write st fid name qp idx total body s hname hidx hs hmem]
      by_cases hc : (((s.receivedChunks.length + 1 : Nat)) : Int) = s.totalChunks
      · have hcond : (((s.receivedChunks ++ [idx]).length : Nat) : Int) = s.totalChunks := by
          simpa [List.length_append] using hc
        unfold acceptWrite
        rw [if_pos hcond]
        simp only [removeDir]
        rw [endStream_timers]
        by_cases ht : t = s.timerId
        · rw [ht]
          exact Or.inr (getA_delA_self _ _)
        · rw [getA_delA_ne _ _ _ ht]
          exact Or.inl rfl
      · rw [acceptWrite_accepted_spec (withUploadDirs st fid) fid s idx body
          (pjoin TEMP_DIR fid) hc]
        exact Or.inl rfl

/-- Claim C9: the expiry deadline is armed once at creation and never rearmed
    by later (nonzero-index) chunk activity; for every registered session
    whose age exceeds the upload timeout, teardown by the periodic sweep or by
    the one-shot timer closes its output sink and removes it from the
    registry, while the files on disk - including the partially written
    destination file - are left untouched. -/
theorem c9_expiry_teardown (st : ServerState) (fid : String) (u : Session)
    (p : FsPath) (b : Bool) (tid dl : Nat)
    (hu : getA st.tracker fid = some u)
    (hws : getA st.streams u.streamId = some { path := p, closed := b }) :
    (∀ (name : String) (qp : Option FsPath) (idx total : Int) (body : Bytes) (fid2 : String),
        name ≠ "" → idx ≠ 0 → ∀ t,
        getA (processUploadChunk st (ChunkHeaders.mk (some name) (some idx) (some total) (some fid2)) qp body).1.timers t
          = getA st.timers t
        ∨ getA (processUploadChunk st (ChunkHeaders.mk (some name) (some idx) (some total) (some fid2)) qp body).1.timers t
          = none)
    ∧ (UPLOAD_TIMEOUT < st.now - u.createdAt →
        getA (cleanupStaleUploads st).tracker fid = none
        ∧ getA (cleanupStaleUploads st).streams u.streamId = some { path := p, closed := true }
        ∧ (cleanupStaleUploads st).files = st.files)
    ∧ (getA st.timers tid = some (fid, dl) →
        getA (fireTimer st tid).tracker fid = none
        ∧ getA (fireTimer st tid).streams u.streamId = some { path := p, closed := true }
        ∧ (fireTimer st tid).files = st.files) := by
  refine ⟨?_, ?_, ?_⟩
  · intro name qp idx total body fid2 hname hidx t
    exact processUploadChunk_timers_nonzero st fid2 name qp idx total body hname hidx t
  · intro hstale
    have hmem := getA_mem st.tracker fid u hu
    have hhit := sweep_hit st.now fid u p hstale st.tracker st hmem ⟨b, hws⟩
    exact ⟨hhit.1, hhit.2, sweepFold_files st.now st.tracker st⟩
  · intro htid
    have h1 : getA (fireTimer st tid).tracker fid = none := by
      simp only [fireTimer, htid, hu]
      exact getA_delA_self _ _
    have h2 : getA (fireTimer st tid).streams u.streamId
        = some { path := p, closed := true } := by
      simp only [fireTimer, htid, hu]
      exact endStream_getA_self _ u.streamId (WStream.mk p b) hws
    have h3 : (fireTimer st tid).files = st.files := by
      simp only [fireTimer, htid, hu]
      rw [endStream_files]
    exact ⟨h1, h2, h3⟩

/-- The fixture aged past the upload timeout. -/
def staleDemo : ServerState := { demoState with now := UPLOAD_TIMEOUT + 1 }

/-- Concrete instance of C9 on the stale fixture: a nonzero-index request
    leaves the timer entry alone, and both teardown paths drop the session,
    close its sink and leave the files as they are. -/
theorem c9_expiry_teardown_witness :
    (getA (processUploadChunk staleDemo
          (ChunkHeaders.mk (some "x.txt") (some 2) (some 3) (some "f1")) none [1]).1.timers 0
        = getA staleDemo.timers 0
      ∨ getA (processUploadChunk staleDemo
          (ChunkHeaders.mk (some "x.txt") (some 2) (some 3) (some "f1")) none [1]).1.timers 0
        = none)
    ∧ (getA (cleanupStaleUploads staleDemo).tracker "f1" = none
       ∧ getA (cleanupStaleUploads staleDemo).streams 0
           = some { path := ["data", "a.txt"], closed := true }
       ∧ (cleanupStaleUploads staleDemo).files = staleDemo.files)
    ∧ (getA (fireTimer staleDemo 0).tracker "f1" = none
       ∧ getA (fireTimer staleDemo 0).streams 0
           = some { path := ["data", "a.txt"], closed := true }
       ∧ (fireTimer staleDemo 0).files = staleDemo.files) :=
  let c := c9_expiry_teardown staleDemo "f1" demoSession ["data", "a.txt"] false 0
    UPLOAD_TIMEOUT (by decide) (by decide)
  ⟨c.1 "x.txt" none 2 3 [1] "f1" (by decide) (by decide) 0,
   c.2.1 (by decide), c.2.2 (by decide)⟩

/-! ### The received-count bound (C7) -/

/-- Every live session with a sane declared total keeps its received count
    strictly below totalChunks (the session is finalized and removed the
    moment the count reaches the total). -/
def SessInv (st : ServerState) : Prop :=
  ∀ (fid : String) (s : Session), getA st.tracker fid = some s →
    1 ≤ s.totalChunks → ((s.receivedChunks.length : Int)) < s.totalChunks

theorem sessInv_createSession (st : ServerState) (fid name : String) (tp : FsPath)
    (total : Int) (hinv : SessInv st) :
    SessInv (createSession st fid name tp total) := by
  intro f2 s2 h2 htot
  by_cases hf : f2 = fid
  · subst hf
    rw [createSession_tracker_self] at h2
    have hs2 := Option.some.inj h2
    subst hs2
    simpa [freshSession] using htot
  · simp only [createSession] at h2
    rw [getA_setA_ne _ _ _ _ hf] at h2
    exact hinv f2 s2 h2 htot

theorem sessInv_acceptWrite (st : ServerState) (fid : String) (s : Session)
    (idx : Int) (body : Bytes) (tempDir : FsPath)
    (hinv : SessInv st) (hs : getA st.tracker fid = some s) :
    SessInv (acceptWrite st fid s idx body tempDir).1 := by
  by_cases hc : (((s.receivedChunks ++ [idx]).length : Nat) : Int) = s.totalChunks
  · unfold acceptWrite
    rw [if_pos hc]
    intro f2 s2 h2 htot
    have h2' : getA (delA (endStream (writeBody st s body) s.streamId).tracker fid) f2
        = some s2 := h2
    rw [endStream_tracker] at h2'
    have h3 := getA_delA_some _ _ _ _ h2'
    exact hinv f2 s2 h3 htot
  · have hne : ((s.receivedChunks.length + 1 : Nat) : Int) ≠ s.totalChunks := by
      intro hx
      exact hc (by simpa [List.length_append] using hx)
    rw [acceptWrite_accepted_spec st fid s idx body tempDir hne]
    intro f2 s2 h2 htot
    by_cases hf : f2 = fid
    · subst hf
      have h2' : getA (setA st.tracker f2
          { s with receivedChunks := s.receivedChunks ++ [idx] }) f2 = some s2 := h2
      rw [getA_setA_self] at h2'
      have hs2 := Option.some.inj h2'
      subst hs2
      have hlt := hinv f2 s hs (by simpa using htot)
      simp only [List.length_append, List.length_cons, List.length_nil]
      have hne' : ((s.receivedChunks.length + 1 : Nat) : Int) ≠ s.totalChunks := hne
      push_cast at hlt hne' ⊢
      omega
    · have h2' : getA (setA st.tracker fid
          { s with receivedChunks := s.receivedChunks ++ [idx] }) f2 = some s2 := h2
      rw [getA_setA_ne _ _ _ _ hf] at h2'
      exact hinv f2 s2 h2' htot

theorem sessInv_processUploadChunk (st : ServerState) (h : ChunkHeaders)
    (qp : Option FsPath) (body : Bytes) (hinv : SessInv st) :
    SessInv (processUploadChunk st h qp body).1 := by
  have hcanon : processUploadChunk st h qp body
      = processUploadChunk st (ChunkHeaders.mk (some (parseChunkHeaders h st.now).1)
          (some (parseChunkHeaders h st.now).2.1) (some (parseChunkHeaders h st.now).2.2.1)
          (some (parseChunkHeaders h st.now).2.2.2)) qp body := rfl
  rw [hcanon]
  generalize (parseChunkHeaders h st.now).1 = name
  generalize (parseChunkHeaders h st.now).2.1 = idx
  generalize (parseChunkHeaders h st.now).2.2.1 = total
  generalize (parseChunkHeaders h st.now).2.2.2 = fid
  by_cases hname : name = ""
  · have hmf : processUploadChunk st
        (ChunkHeaders.mk (some name) (some idx) (some total) (some fid)) qp body
        = (st, ChunkResponse.missingFileName) := by
      simp [processUploadChunk, parseChunkHeaders, hname]
    rw [hmf]
    exact hinv
  · by_cases hidx : idx = 0
    · subst hidx
      rw [processUploadChunk_zero st fid name qp total body hname]
      exact sessInv_acceptWrite _ fid _ 0 body _
        (sessInv_createSession _ fid name _ total hinv)
        (createSession_tracker_self _ fid name _ total)
    · cases hs : getA st.tracker fid with
      | none =>
        rw [processUploadChunk_notfound st fid name qp idx total body hname hidx hs]
        exact hinv
      | some s =>
        by_cases hmem : idx ∈ s.receivedChunks
        · rw [processUploadChunk_dup st fid name qp idx total body s hname hidx hs hmem]
          exact hinv
        · rw [processUploadChunk_write st fid name qp idx total body s hname hidx hs hmem]
          exact sessInv_acceptWrite _ fid s idx body _ hinv hs

theorem processCombineChunks_tracker (st : ServerState) (h : CombineHeaders)
    (qp : Option FsPath) : (processCombineChunks st h qp).1.tracker = st.tracker := by
  simp only [processCombineChunks]
  split
  · rfl
  · split
    · split
      · rfl
      · simp only [removeDir]
        rw [endStream_tracker]
    · rfl

theorem sweepStep_tracker_some (now : Nat) (acc : ServerState) (e : String × Session)
    (f : String) (s : Session)
    (h : getA (sweepStep now acc e).tracker f = some s) : getA acc.tracker f = some s := by
  unfold sweepStep at h
  split at h
  · have h2 := getA_delA_some _ _ _ _ h
    rwa [endStream_tracker] at h2
  · exact h

theorem sweepFold_tracker_some (now : Nat) :
    ∀ (l : List (String × Session)) (acc : ServerState) (f : String) (s : Session),
      getA (l.foldl (sweepStep now) acc).tracker f = some s →
      getA acc.tracker f = some s := by
  intro l
  induction l with
  | nil => intro acc f s h; exact h
  | cons e t ih =>
    intro acc f s h
    rw [List.foldl_cons] at h
    exact sweepStep_tracker_some now acc e f s (ih _ f s h)

theorem sessInv_sweep (st : ServerState) (hinv : SessInv st) :
    SessInv (cleanupStaleUploads st) := by
  intro f2 s2 h2 htot
  exact hinv f2 s2 (sweepFold_tracker_some st.now st.tracker st f2 s2 h2) htot

theorem sessInv_fireTimer (st : ServerState) (tid : Nat) (hinv : SessInv st) :
    SessInv (fireTimer st tid) := by
  unfold fireTimer
  split
  · exact hinv
  · intro f2 s2 h2 htot
    dsimp only at h2
    have h3 := getA_delA_some _ _ _ _ h2
    split at h3
    · rw [endStream_tracker] at h3
      exact hinv f2 s2 h3 htot
    · exact hinv f2 s2 h3 htot

/-- Claim C7 counterexample: with a declared total of 0, the session created
    by chunk 0 ends up with receivedChunks.size 1 while totalChunks is 0, so
    the size exceeds the declared total. -/
theorem c7_counterexample :
    getA (processUploadChunk initState
        (ChunkHeaders.mk (some "a.txt") (some 0) (some 0) (some "f1"))
        (some ["data"]) [5]).1.tracker "f1"
      = some (Session.mk ["data", "a.txt"] [0] 0 0 0 0)
    ∧ (Session.mk ["data", "a.txt"] [0] 0 0 0 0).totalChunks
        < (((Session.mk ["data", "a.txt"] [0] 0 0 0 0).receivedChunks.length : Nat) : Int) := by
  decide

/-- Every reachable state satisfies the strict received-count invariant. -/
theorem sessInv_reachable (st : ServerState) (hreach : ServerReach st) : SessInv st := by
  induction hreach with
  | boot =>
    intro f2 s2 h2 _
    simp [initState, getA] at h2
  | step hr hstep ih =>
    cases hstep with
    | chunk h2 qp2 body2 => exact sessInv_processUploadChunk _ h2 qp2 body2 ih
    | combine h2 qp2 =>
      intro f2 s2 hg htot2
      rw [processCombineChunks_tracker] at hg
      exact ih f2 s2 hg htot2
    | timer tid fid2 dl hg hd => exact sessInv_fireTimer _ tid ih
    | sweep => exact sessInv_sweep _ ih
    | tick d => exact ih

/-- Claim C7 amended: in every reachable server state, every registered
    session whose declared totalChunks is at least 1 has a received count
    that never exceeds totalChunks; a session created with a declared total
    of 0 or less can exceed it. -/
theorem c7_received_bound (st : ServerState) (hreach : ServerReach st)
    (fid : String) (s : Session) (hs : getA st.tracker fid = some s)
    (htot : 1 ≤ s.totalChunks) :
    ((s.receivedChunks.length : Nat) : Int) ≤ s.totalChunks :=
  le_of_lt (sessInv_reachable st hreach fid s hs htot)

/-- Concrete instance of the amended C7: after chunk 0 of a declared total of
    2, the session's received count 1 is within the bound. -/
theorem c7_received_bound_witness :
    (((Session.mk ["data", "a.txt"] [0] 0 2 0 0).receivedChunks.length : Nat) : Int)
      ≤ (Session.mk ["data", "a.txt"] [0] 0 2 0 0).totalChunks :=
  c7_received_bound
    (processUploadChunk initState
      (ChunkHeaders.mk (some "a.txt") (some 0) (some 2) (some "f1")) (some ["data"]) [7]).1
    (ServerReach.step ServerReach.boot
      (ServerStep.chunk initState
        (ChunkHeaders.mk (some "a.txt") (some 0) (some 2) (some "f1")) (some ["data"]) [7]))
    "f1" (Session.mk ["data", "a.txt"] [0] 0 2 0 0) (by decide) (by decide)
